import Mathlib

/-!
# Verification of the reactive-state glue layer (vue-comments)

Shallow embedding of the instance-state layer of the repository:
`src/core/instance/state.js` (proxy, getData, computed accessors, $watch),
`src/core/instance/inject.js` (provide/inject resolution, shipped unnamed),
together with the parts of the observer layer (Watcher, Dep target stack,
toggleObserving) that these functions call.  The observer layer itself is
not part of the shipped sources, so those collaborators are modelled from
the specification where a claim depends on them; every such definition is
marked `Modelled from the spec:` in its doc comment.

JavaScript values are modelled by the inductive `JSVal`; objects are
association lists of string keys.  Exceptions are modelled by `Except` /
an explicit `JSResult`.
-/

set_option maxHeartbeats 1000000

namespace VueState

/-- JavaScript runtime values, as far as this layer manipulates them:
`undefined`, primitives, and plain objects (association lists, first
binding wins on lookup, insertion order preserved). -/
inductive JSVal where
  | undefined : JSVal
  | null : JSVal
  | bool : Bool → JSVal
  | num : Int → JSVal
  | str : String → JSVal
  | obj : List (String × JSVal) → JSVal
deriving Repr

/-- Association-list field lookup: first binding for the key, as
JavaScript property lookup on a plain object. -/
def getField : List (String × JSVal) → String → Option JSVal
  | [], _ => none
  | (k, v) :: rest, key => if k = key then some v else getField rest key

/-- `hasOwn` from shared/util: does the object own the key? -/
def hasOwn (m : List (String × JSVal)) (key : String) : Bool :=
  (getField m key).isSome

/-- Association-list field update: replace the first binding for the key,
or append a fresh binding, as JavaScript property assignment. -/
def setField : List (String × JSVal) → String → JSVal → List (String × JSVal)
  | [], key, v => [(key, v)]
  | (k, w) :: rest, key, v =>
    if k = key then (k, v) :: rest else (k, w) :: setField rest key v

@[simp] theorem getField_nil (key : String) : getField [] key = none := rfl

theorem getField_setField_self (m : List (String × JSVal)) (key : String) (v : JSVal) :
    getField (setField m key v) key = some v := by
  induction m with
  | nil => simp [setField, getField]
  | cons p rest ih =>
    obtain ⟨k, w⟩ := p
    by_cases h : k = key
    · simp [setField, getField, h]
    · simp [setField, getField, h, ih]

theorem getField_setField_other (m : List (String × JSVal)) (key key' : String) (v : JSVal)
    (h : key ≠ key') : getField (setField m key v) key' = getField m key' := by
  induction m with
  | nil => simp [setField, getField, h]
  | cons p rest ih =>
    obtain ⟨k, w⟩ := p
    by_cases hk : k = key
    · subst hk
      simp [setField, getField, h]
    · simp [setField, getField, hk, ih]

/-! ## Provide/inject resolution (`inject.js`, shipped as `unnamed/part_000`)

An instance is represented by its ownership chain: the list of the
`_provided` mappings of the instance itself followed by its `$parent`
chain up to the root.  `none` stands for an instance whose `_provided`
field is unset (the `source._provided &&` guard in the source). -/

/-- A `_provided` mapping: plain object of provided values. -/
abbrev ProvidedMap := List (String × JSVal)

/-- The consuming instance together with its `$parent` chain, nearest
first: element 0 is the instance itself, the last element is the root. -/
abbrev VMChain := List (Option ProvidedMap)

/-- The `default` field of one inject entry: absent, a static value, or a
factory function invoked with the instance as receiver
(`provideDefault.call(vm)`). -/
inductive InjectDefault where
  | value : JSVal → InjectDefault
  | factory : (VMChain → JSVal) → InjectDefault

/-- One normalized inject entry `{ from: provideKey, default?: ... }`.
(`from` is a Lean keyword, hence `fromKey`.) -/
structure InjectEntry where
  fromKey : String
  default? : Option InjectDefault

/-- The `while (source)` walk of `resolveInject`: starting at the
instance, follow `$parent` links; stop at the first ancestor whose
`_provided` mapping owns the requested source key and return its value;
return `none` when the chain is exhausted (`!source`). -/
def lookupProvided : VMChain → String → Option JSVal
  | [], _ => none
  | none :: rest, k => lookupProvided rest k
  | some m :: rest, k =>
    if hasOwn m k then getField m k else lookupProvided rest k

/-- The body of `resolveInject`'s key loop, over the list of inject keys
in iteration order.  Returns the `result` mapping together with the list
of warnings emitted (dev mode only).  `key === '__ob__'` is skipped;
a found provider binds its value; otherwise a declared default is used
(factory invoked on the instance); otherwise, in dev, an
"Injection not found" warning is emitted and no binding is made. -/
def resolveInjectList (dev : Bool) (vm : VMChain) :
    List (String × InjectEntry) → List (String × JSVal) × List String
  | [] => ([], [])
  | (key, entry) :: rest =>
    let tail := resolveInjectList dev vm rest
    if key = "__ob__" then tail
    else
      match lookupProvided vm entry.fromKey with
      | some v => ((key, v) :: tail.1, tail.2)
      | none =>
        match entry.default? with
        | some (InjectDefault.value v) => ((key, v) :: tail.1, tail.2)
        | some (InjectDefault.factory f) => ((key, f vm) :: tail.1, tail.2)
        | none =>
          if dev then (tail.1, (s!"Injection \"{key}\" not found") :: tail.2)
          else tail

/-- `resolveInject(inject, vm)`: `undefined` when `inject` is absent,
otherwise the resolved `result` mapping (plus collected dev warnings). -/
def resolveInject (dev : Bool) (inject : Option (List (String × InjectEntry)))
    (vm : VMChain) : Option (List (String × JSVal) × List String) :=
  inject.map (resolveInjectList dev vm)

/-! ## initInjections (`inject.js`)

`initInjections` resolves the inject mapping and installs each binding
through `defineReactive`, with `toggleObserving(false)` before the loop
and `toggleObserving(true)` after.  `defineReactive` and
`toggleObserving` live in the observer layer, which is not among the
shipped sources, so the installation is modelled as the trace of
primitive observer-layer calls made by `initInjections`. -/

/-- One observer-layer call made during injection install:
a `toggleObserving(b)` call, or a `defineReactive(vm, key, value)` call
(with a custom warning setter in dev mode). -/
inductive InstallOp where
  | toggleObserving : Bool → InstallOp
  | defineReactive : String → JSVal → Bool → InstallOp
deriving Repr

/-- `initInjections(vm)`: the exact sequence of observer-layer calls it
issues.  When `resolveInject` returns `undefined` (no inject option),
nothing happens; otherwise observation is toggled off, each resolved
binding is installed via `defineReactive` in resolved order, and
observation is toggled back on. -/
def initInjections (dev : Bool) (inject : Option (List (String × InjectEntry)))
    (vm : VMChain) : List InstallOp :=
  match resolveInject dev inject vm with
  | none => []
  | some (result, _) =>
    InstallOp.toggleObserving false ::
      (result.map (fun p => InstallOp.defineReactive p.1 p.2 dev) ++
        [InstallOp.toggleObserving true])

/-- Modelled from the spec: the observer layer's process-wide
`shouldObserve` flag (§4.1, `toggleObserving(bool)` sets it).  Executing
a trace of install ops yields the final flag value and, for every
`defineReactive` call, the flag value in force when that call ran. -/
def execInstall (flag : Bool) : List InstallOp → Bool × List (Bool × String × JSVal)
  | [] => (flag, [])
  | InstallOp.toggleObserving b :: rest => execInstall b rest
  | InstallOp.defineReactive k v _ :: rest =>
    let r := execInstall flag rest
    (r.1, (flag, k, v) :: r.2)

/-! ## The active-target stack, getData and $watch (`state.js`)

`pushTarget` / `popTarget` live in `observer/dep.js`, which is not among
the shipped sources.  Modelled from the spec: the process-wide
ActiveTarget stack (§3) — `Dep.target` is its top; `pushTarget()` with
no argument pushes an empty slot, disabling dependency collection;
`popTarget()` pops, restoring the enclosing evaluator.  Watchers are
identified by their numeric id. -/

/-- The effectful state threaded through `getData` and `$watch`:
the active-target stack (top first; an entry `none` is a
`pushTarget()` with no argument) and the list of
`handleError(e, vm, label)` calls recorded as `(message, label)`. -/
structure EffState where
  targetStack : List (Option Nat)
  errors : List (String × String)
deriving Repr

/-- Modelled from the spec: `Dep.target` is the top of the
active-target stack (flattened: an empty slot means no target). -/
def depTarget (s : EffState) : Option Nat :=
  match s.targetStack with
  | [] => none
  | t :: _ => t

/-- Outcome of calling a user-supplied JavaScript function: a value, or
a thrown exception carrying its message. -/
inductive JSResult (α : Type) where
  | ok : α → JSResult α
  | thrown : String → JSResult α
deriving Repr

/-- `getData(data, vm)` from `state.js`: `pushTarget()` (disable dep
collection), invoke the user `data` function (its outcome is the
argument `d`); on a throw, `handleError(e, vm, "data()")` and return
`{}`; the `finally` block always runs `popTarget()`. -/
def getData (d : JSResult JSVal) (s : EffState) : JSVal × EffState :=
  let pushed : EffState := { s with targetStack := none :: s.targetStack }
  match d with
  | JSResult.ok v =>
    (v, { pushed with targetStack := pushed.targetStack.tail })
  | JSResult.thrown e =>
    (JSVal.obj [],
      { pushed with
        errors := pushed.errors ++ [(e, "data()")],
        targetStack := pushed.targetStack.tail })

/-! ## User watchers: `$watch` (`state.js`) and Watcher teardown

The `Watcher` class lives in `observer/watcher.js`, which is not among
the shipped sources; the fields and behaviour `$watch` relies on are
modelled from the spec (§4.2): a non-lazy watcher evaluates immediately
and captures the initial value and the set of Deps it read;
`teardown()` unsubscribes it from every Dep it holds and deactivates it. -/

/-- Modelled from the spec: the observable state of one Watcher as the
instance-state layer sees it — numeric id, cached `value`, the option
flags it was constructed with, its `active` flag and the ids of the
Deps it currently holds (§3, §4.2). -/
structure WatcherM where
  id : Nat
  value : JSVal
  user : Bool
  deep : Bool
  sync : Bool
  lazyFlag : Bool
  active : Bool
  deps : List Nat
deriving Repr

/-- The options record passed to `$watch` (`{deep, immediate, sync}`;
`user` is forced by `$watch` itself). -/
structure WatchOptions where
  user : Bool := false
  immediate : Bool := false
  deep : Bool := false
  sync : Bool := false
deriving Repr, DecidableEq

/-- The subscriber table of the dependency registry: each Dep id maps to
the list of subscribed watcher ids. -/
abbrev DepWorld := List (Nat × List Nat)

/-- Subscriber list of one Dep in the table (first entry wins). -/
def getDep : DepWorld → Nat → Option (List Nat)
  | [], _ => none
  | (i, subs) :: rest, d => if i = d then some subs else getDep rest d

/-- Modelled from the spec: `dep.removeSub(watcher)` — remove one
watcher id from one Dep's subscriber list. -/
def removeSub (world : DepWorld) (depId wid : Nat) : DepWorld :=
  world.map (fun p => if p.1 = depId then (p.1, p.2.filter (fun x => x ≠ wid)) else p)

/-- Modelled from the spec: `watcher.teardown()` (§4.2) — if still
active, unsubscribe from every held Dep, drop the dep list and clear
`active`; a no-op when already inactive (idempotent). -/
def teardown (w : WatcherM) (world : DepWorld) : WatcherM × DepWorld :=
  if w.active then
    ({ w with active := false, deps := [] },
      w.deps.foldl (fun acc d => removeSub acc d w.id) world)
  else (w, world)

/-- The value `$watch` returns: the `unwatchFn` closure, which captures
the created watcher and calls its `teardown()` when invoked. -/
inductive UnwatchAction where
  | teardownOf : Nat → UnwatchAction
deriving Repr, DecidableEq

/-- Invoking the closure returned by `$watch` on the watcher it captured:
it calls `watcher.teardown()`. -/
def runUnwatch : UnwatchAction → WatcherM → DepWorld → WatcherM × DepWorld
  | UnwatchAction.teardownOf _, w, world => teardown w world

/-- Everything observable about one `$watch` call: the watcher created,
the arguments of the immediate callback invocations performed before
returning, the returned unwatch closure, and the effect state after the
call. -/
structure WatchCallResult where
  watcher : WatcherM
  immediateCalls : List JSVal
  unwatch : UnwatchAction
  state : EffState

/-- `Vue.prototype.$watch` (`state.js`), function-callback path:
set `options.user = true`; create a (non-lazy) watcher — modelled from
the spec, it evaluates immediately, capturing `initialValue` as its
`value` and `collectedDeps` as its dep set; if `options.immediate`,
`pushTarget()`, invoke the callback with the watcher's value through
`invokeWithErrorHandling` (a throw is forwarded to `handleError` with
the immediate-watcher label, never propagated), `popTarget()`;
return the `unwatchFn` closure. -/
def dollarWatch (nextId : Nat) (initialValue : JSVal) (collectedDeps : List Nat)
    (cb : JSVal → JSResult Unit) (expression : String) (opts : WatchOptions)
    (s : EffState) : WatchCallResult :=
  let opts' : WatchOptions := { opts with user := true }
  let watcher : WatcherM :=
    { id := nextId, value := initialValue, user := opts'.user, deep := opts'.deep,
      sync := opts'.sync, lazyFlag := false, active := true, deps := collectedDeps }
  let afterImmediate : List JSVal × EffState :=
    if opts'.immediate then
      let pushed : EffState := { s with targetStack := none :: s.targetStack }
      let info := s!"callback for immediate watcher \"{expression}\""
      let handled : EffState :=
        match cb watcher.value with
        | JSResult.ok _ => pushed
        | JSResult.thrown e => { pushed with errors := pushed.errors ++ [(e, info)] }
      ([watcher.value], { handled with targetStack := handled.targetStack.tail })
    else ([], s)
  { watcher := watcher
    immediateCalls := afterImmediate.1
    unwatch := UnwatchAction.teardownOf watcher.id
    state := afterImmediate.2 }

/-! ## Computed properties (`state.js`)

`createComputedGetter(key)` returns the public getter of a computed
property with caching enabled.  It drives the computed key's lazy
Watcher: `evaluate()` and `depend()` live in `observer/watcher.js`
(not among the shipped sources) and are modelled from the spec (§4.2):
`evaluate()` runs `get()` — which executes the user getter body — and
clears `dirty`; `depend()` attaches the watcher's deps to the outer
active target. -/

/-- The observable state of a computed key's lazy Watcher: its `dirty`
flag, cached `value`, and a counter of how many times the user getter
body has run (for the cache property). -/
structure CompWatcher where
  dirty : Bool
  value : JSVal
  evalCount : Nat
deriving Repr

/-- Modelled from the spec: `watcher.evaluate()` (§4.2) — run the user
getter body (its current result is `g`; the run is counted), cache the
result and clear `dirty`. -/
def evaluateW (g : JSVal) (w : CompWatcher) : CompWatcher :=
  { w with value := g, dirty := false, evalCount := w.evalCount + 1 }

/-- The observer-layer calls a computed read performs, in order. -/
inductive CGOp where
  | evaluated : CGOp
  | depended : CGOp
deriving Repr, DecidableEq

/-- `createComputedGetter(key)`'s returned `computedGetter`, for an
installed watcher: if the watcher is dirty, `evaluate()` (running the
user getter, whose current result is `g`); if `Dep.target` is set,
`depend()`; return the watcher's cached `value`.  Also returns the
resulting watcher state and the trace of observer-layer calls. -/
def computedGetter (g : JSVal) (target : Option Nat) (w : CompWatcher) :
    JSVal × CompWatcher × List CGOp :=
  let step1 : CompWatcher × List CGOp :=
    if w.dirty then (evaluateW g w, [CGOp.evaluated]) else (w, [])
  let trace :=
    if target.isSome then step1.2 ++ [CGOp.depended] else step1.2
  (step1.1.value, step1.1, trace)

/-- `n` successive reads of the computed property while its dependencies
are unchanged (the user getter body would keep producing `g`): the final
watcher state and the list of values returned, in order. -/
def readN (g : JSVal) (target : Option Nat) : Nat → CompWatcher → CompWatcher × List JSVal
  | 0, w => (w, [])
  | n + 1, w =>
    let r := computedGetter g target w
    let rest := readN g target n r.2.1
    (rest.1, r.1 :: rest.2)

/-! ## defineComputed's setter selection (`state.js`) -/

/-- The instance state a computed setter can touch: the computed key's
cached value (the lazy watcher's `value`), the rest of the instance
fields, and the dev-warning log. -/
structure CompState where
  cachedValue : JSVal
  fields : List (String × JSVal)
  warnings : List String

/-- A computed property's user definition: a bare getter function, or an
object `{get?, set?, cache?}`.  Only the shape matters for setter
selection; the user setter, when present, is an arbitrary state
transformer. -/
inductive CompUserDef where
  | fn : CompUserDef
  | objDef : Bool → Option (JSVal → CompState → CompState) → Option Bool → CompUserDef

/-- The setter `defineComputed` installs on the property. -/
inductive CompSetter where
  | noSetter : CompSetter
  | warnNoSetter : String → CompSetter
  | userSetter : (JSVal → CompState → CompState) → CompSetter

/-- `defineComputed(target, key, userDef)`, setter half: a function-form
definition gets `noop`; an object form gets `userDef.set || noop`; then,
in dev mode only, a still-`noop` setter is replaced by one that warns
`Computed property "key" was assigned to but it has no setter.`. -/
def chooseSetter (dev : Bool) (userDef : CompUserDef) (key : String) : CompSetter :=
  let base : CompSetter :=
    match userDef with
    | CompUserDef.fn => CompSetter.noSetter
    | CompUserDef.objDef _ set? _ =>
      match set? with
      | some f => CompSetter.userSetter f
      | none => CompSetter.noSetter
  if dev then
    match base with
    | CompSetter.noSetter => CompSetter.warnNoSetter key
    | other => other
  else base

/-- Assigning `v` to the computed property: run the installed setter.
`noop` does nothing; the dev warning setter only appends the advisory
warning; a user setter runs the user's code.  Total — never throws. -/
def applySetter : CompSetter → JSVal → CompState → CompState
  | CompSetter.noSetter, _, st => st
  | CompSetter.warnNoSetter k, _, st =>
    { st with warnings :=
        st.warnings ++
          [s!"Computed property \"{k}\" was assigned to but it has no setter."] }
  | CompSetter.userSetter f, v, st => f v st

/-! ## The property proxy (`state.js`)

`proxy(target, sourceKey, key)` installs `get`/`set` accessors so that
`target[key]` forwards to `target[sourceKey][key]`.  The instance is an
object (association list of fields); JavaScript member access on
`undefined`/`null` throws a TypeError, on other primitives reads give
`undefined` and writes are silently dropped.  The proxy threads an
observer-effect record through untouched: it performs no dependency
tracking and no notification. -/

/-- JavaScript property read `v[key]`. -/
def jsGetProp : JSVal → String → Except String JSVal
  | JSVal.obj fields, key => Except.ok ((getField fields key).getD JSVal.undefined)
  | JSVal.undefined, _ => Except.error "TypeError"
  | JSVal.null, _ => Except.error "TypeError"
  | _, _ => Except.ok JSVal.undefined

/-- Observer-layer effects a reactive accessor would record; the proxy
must leave both lists untouched. -/
structure ProxyEff where
  depends : List Nat
  notifies : List Nat
deriving Repr, DecidableEq

/-- The `proxyGetter` closure installed by `proxy(target, sourceKey,
key)`: `return this[sourceKey][key]`. -/
def proxyGetter (inst : List (String × JSVal)) (sourceKey key : String)
    (eff : ProxyEff) : Except String JSVal × ProxyEff :=
  (match jsGetProp (JSVal.obj inst) sourceKey with
    | Except.error e => Except.error e
    | Except.ok backing => jsGetProp backing key, eff)

/-- The `proxySetter` closure installed by `proxy(target, sourceKey,
key)`: `this[sourceKey][key] = val` — mutates the backing object in
place, so the instance's `sourceKey` field holds the updated object. -/
def proxySetter (inst : List (String × JSVal)) (sourceKey key : String)
    (v : JSVal) (eff : ProxyEff) :
    Except String (List (String × JSVal)) × ProxyEff :=
  (match (getField inst sourceKey).getD JSVal.undefined with
    | JSVal.obj fields =>
      Except.ok (setField inst sourceKey (JSVal.obj (setField fields key v)))
    | JSVal.undefined => Except.error "TypeError"
    | JSVal.null => Except.error "TypeError"
    | _ => Except.ok inst, eff)

/-! ## Theorems -/

theorem lookupProvided_append_first (pre post : VMChain) (m : ProvidedMap)
    (fk : String)
    (hpre : ∀ mp : ProvidedMap, some mp ∈ pre → getField mp fk = none)
    (hm : (getField m fk).isSome) :
    lookupProvided (pre ++ some m :: post) fk = getField m fk := by
  induction pre with
  | nil => simp [lookupProvided, hasOwn, hm]
  | cons p rest ih =>
    cases p with
    | none =>
      simp only [List.cons_append, lookupProvided]
      exact ih (fun mp hmp => hpre mp (List.mem_cons_of_mem _ hmp))
    | some mp =>
      have hnone : getField mp fk = none := hpre mp (List.mem_cons_self _ _)
      simp only [List.cons_append, lookupProvided, hasOwn, hnone, Option.isSome_none,
        Bool.false_eq_true, if_false]
      exact ih (fun mp' hmp' => hpre mp' (List.mem_cons_of_mem _ hmp'))

/-- C2: resolveInject walks the `$parent` chain from the consuming
instance towards the root and binds each injected key to the value of
the requested source key in the nearest ancestor whose `_provided`
mapping contains it; the walk stops at the first match, so a nearer
provider wins over a farther one. -/
theorem resolveInject_nearest_ancestor_wins
    (pre post : VMChain) (m : ProvidedMap) (fk : String) (v : JSVal)
    (hpre : ∀ mp : ProvidedMap, some mp ∈ pre → getField mp fk = none)
    (hm : getField m fk = some v)
    (dev : Bool) (key : String) (d : Option InjectDefault)
    (rest : List (String × InjectEntry)) (hkey : key ≠ "__ob__") :
    lookupProvided (pre ++ some m :: post) fk = some v ∧
    (resolveInjectList dev (pre ++ some m :: post) ((key, ⟨fk, d⟩) :: rest)).1
      = (key, v) :: (resolveInjectList dev (pre ++ some m :: post) rest).1 := by
  have h1 : lookupProvided (pre ++ some m :: post) fk = some v := by
    rw [lookupProvided_append_first pre post m fk hpre (by simp [hm])]
    exact hm
  refine ⟨h1, ?_⟩
  simp [resolveInjectList, hkey, h1]

/-- Witness for C2 at the spec's example chain
Root(provides theme=dark) → Mid → Leaf(injects theme from theme). -/
theorem resolveInject_nearest_ancestor_wins_witness :
    lookupProvided [none, none, some [("theme", JSVal.str "dark")]] "theme"
        = some (JSVal.str "dark") ∧
    (resolveInjectList false [none, none, some [("theme", JSVal.str "dark")]]
        [("theme", ⟨"theme", none⟩)]).1 = [("theme", JSVal.str "dark")] := by
  have h := resolveInject_nearest_ancestor_wins [none, none] []
    [("theme", JSVal.str "dark")] "theme" (JSVal.str "dark")
    (by intro mp hmp; simp at hmp) (by simp [getField])
    false "theme" none [] (by simp)
  simpa [resolveInjectList] using h

/-- C3: when no ancestor provides the requested source key, a declared
`default` is used (a function default is invoked as a zero-argument
factory on the instance, a plain default as-is); with no default, dev
mode emits the advisory "Injection not found" warning, nothing is bound
(reading the key yields `undefined`), and resolution still returns —
it never throws. -/
theorem resolveInject_default_fallback (dev : Bool) (vm : VMChain)
    (fk key : String) (v : JSVal) (f : VMChain → JSVal)
    (rest : List (String × InjectEntry))
    (hnone : lookupProvided vm fk = none) (hkey : key ≠ "__ob__") :
    resolveInjectList dev vm ((key, ⟨fk, some (InjectDefault.value v)⟩) :: rest)
      = ((key, v) :: (resolveInjectList dev vm rest).1,
         (resolveInjectList dev vm rest).2) ∧
    resolveInjectList dev vm ((key, ⟨fk, some (InjectDefault.factory f)⟩) :: rest)
      = ((key, f vm) :: (resolveInjectList dev vm rest).1,
         (resolveInjectList dev vm rest).2) ∧
    resolveInjectList true vm ((key, ⟨fk, none⟩) :: rest)
      = ((resolveInjectList true vm rest).1,
         (s!"Injection \"{key}\" not found") :: (resolveInjectList true vm rest).2) ∧
    resolveInjectList false vm ((key, ⟨fk, none⟩) :: rest)
      = resolveInjectList false vm rest ∧
    getField (resolveInjectList true vm [(key, ⟨fk, none⟩)]).1 key = none := by
  refine ⟨?_, ?_, ?_, ?_, ?_⟩ <;>
    simp [resolveInjectList, hkey, hnone, getField]

/-- Witness for C3: an unprovided key with a value default, a factory
default, and no default, on an instance with no providers at all. -/
theorem resolveInject_default_fallback_witness :
    resolveInjectList false [none] [("a", ⟨"src", some (InjectDefault.value (JSVal.num 1))⟩)]
      = ([("a", JSVal.num 1)], []) ∧
    resolveInjectList false [none]
        [("a", ⟨"src", some (InjectDefault.factory (fun _ => JSVal.num 2))⟩)]
      = ([("a", JSVal.num 2)], []) ∧
    resolveInjectList true [none] [("a", ⟨"src", none⟩)]
      = ([], [s!"Injection \"a\" not found"]) ∧
    getField (resolveInjectList true [none] [("a", ⟨"src", none⟩)]).1 "a" = none := by
  have h := resolveInject_default_fallback false [none] "src" "a" (JSVal.num 1)
    (fun _ => JSVal.num 2) [] (by simp [lookupProvided]) (by simp)
  exact ⟨by simpa [resolveInjectList] using h.1,
         by simpa [resolveInjectList] using h.2.1,
         by simpa [resolveInjectList] using h.2.2.1,
         h.2.2.2.2⟩

/-- C10: resolveInject skips any inject key named `__ob__` (the
observed-object marker), so the resolved result mapping never contains
a binding for `__ob__`, whatever the inject specification or chain. -/
theorem resolveInject_skips_ob_marker (dev : Bool) (vm : VMChain)
    (inject : List (String × InjectEntry)) :
    getField (resolveInjectList dev vm inject).1 "__ob__" = none := by
  induction inject with
  | nil => rfl
  | cons p rest ih =>
    obtain ⟨key, entry⟩ := p
    by_cases hk : key = "__ob__"
    · simp [resolveInjectList, hk, ih]
    · cases hl : lookupProvided vm entry.fromKey with
      | some v => simp [resolveInjectList, hk, hl, getField, ih]
      | none =>
        cases hd : entry.default? with
        | some d =>
          cases d <;> simp [resolveInjectList, hk, hl, hd, getField, ih]
        | none =>
          cases dev <;>
            simp_all [resolveInjectList, hk, hl, hd, getField]

theorem execInstall_defines (dev flag : Bool) (l : List (String × JSVal)) :
    execInstall flag
        (l.map (fun p => InstallOp.defineReactive p.1 p.2 dev) ++
          [InstallOp.toggleObserving true])
      = (true, l.map (fun p => (flag, p.1, p.2))) := by
  induction l with
  | nil => rfl
  | cons p rest ih => simp [execInstall, ih]

/-- C4: when injections resolve, initInjections toggles observation off,
installs every resolved binding via one `defineReactive` call while the
observation flag is off (so the injected value is not deep-observed at
install time), and toggles observation back on; the installed bindings
are exactly the resolved ones, each resolved once at setup. -/
theorem initInjections_install_discipline (dev : Bool)
    (inject : Option (List (String × InjectEntry))) (vm : VMChain)
    (result : List (String × JSVal)) (warns : List String)
    (h : resolveInject dev inject vm = some (result, warns)) (b : Bool) :
    execInstall b (initInjections dev inject vm)
      = (true, result.map (fun p => (false, p.1, p.2))) := by
  simp only [initInjections, h, execInstall]
  exact execInstall_defines dev false result

/-- Witness for C4: a single injected key resolving through a value
default; observation is off at its `defineReactive` call and back on at
the end. -/
theorem initInjections_install_discipline_witness :
    execInstall true
        (initInjections false
          (some [("theme", ⟨"theme", some (InjectDefault.value (JSVal.num 7))⟩)])
          [none])
      = (true, [(false, "theme", JSVal.num 7)]) := by
  have h := initInjections_install_discipline false
    (some [("theme", ⟨"theme", some (InjectDefault.value (JSVal.num 7))⟩)])
    [none] [("theme", JSVal.num 7)] []
    (by simp [resolveInject, resolveInjectList, lookupProvided]) true
  simpa using h

/-- C5: when the user `data()` function throws during setup, getData
catches the exception, forwards it to `handleError` with the instance
and the contextual label `data()`, and returns the empty object `{}`
instead of propagating the exception; everything else of the effect
state (in particular the target stack) is left as it was. -/
theorem getData_catches_and_falls_back (e : String) (s : EffState) :
    getData (JSResult.thrown e) s
      = (JSVal.obj [], { s with errors := s.errors ++ [(e, "data()")] }) := by
  simp [getData]

/-- C6: every push of the active-target stack performed by this layer is
matched by a pop on all exit paths: getData restores the stack whether
the user data function returns or throws (the pop runs in `finally`),
and `$watch`'s immediate-callback path restores the stack it pushed
after the callback completes, whether or not the callback throws. -/
theorem target_stack_push_pop_balanced :
    (∀ (d : JSResult JSVal) (s : EffState),
      ((getData d s).2).targetStack = s.targetStack) ∧
    (∀ (nextId : Nat) (v : JSVal) (deps : List Nat) (cb : JSVal → JSResult Unit)
      (expr : String) (opts : WatchOptions) (s : EffState),
      (dollarWatch nextId v deps cb expr opts s).state.targetStack = s.targetStack) := by
  constructor
  · intro d s
    cases d <;> simp [getData]
  · intro nextId v deps cb expr opts s
    by_cases him : opts.immediate
    · cases hcb : cb v <;> simp [dollarWatch, him, hcb]
    · simp [dollarWatch, him]

theorem removeSub_cons (i : Nat) (subs : List Nat) (rest : DepWorld)
    (depId wid : Nat) :
    removeSub ((i, subs) :: rest) depId wid
      = (if i = depId then (i, subs.filter (fun x => x ≠ wid)) else (i, subs))
          :: removeSub rest depId wid := rfl

theorem getDep_removeSub (world : DepWorld) (depId wid d : Nat) :
    getDep (removeSub world depId wid) d
      = if depId = d then (getDep world d).map (List.filter (fun x => x ≠ wid))
        else getDep world d := by
  induction world with
  | nil => simp [removeSub, getDep]
  | cons p rest ih =>
    obtain ⟨i, subs⟩ := p
    rw [removeSub_cons]
    by_cases hi : i = depId
    · subst hi
      rw [if_pos rfl]
      by_cases hd2 : i = d
      · subst hd2
        simp [getDep]
      · simp [getDep, hd2, ih]
    · rw [if_neg hi]
      by_cases hd2 : i = d
      · subst hd2
        have hne : depId ≠ i := fun h => hi h.symm
        simp [getDep, hne]
      · simp [getDep, hd2, hi, ih]

theorem removeSub_clears_self (world : DepWorld) (d wid : Nat) :
    ∀ subs, getDep (removeSub world d wid) d = some subs → wid ∉ subs := by
  intro subs hsubs
  rw [getDep_removeSub, if_pos rfl] at hsubs
  obtain ⟨subs0, h0, rfl⟩ := Option.map_eq_some'.mp hsubs
  intro hmem
  have := (List.mem_filter.mp hmem).2
  simp at this

theorem removeSub_keeps_clear (world : DepWorld) (x d wid : Nat)
    (h : ∀ subs, getDep world d = some subs → wid ∉ subs) :
    ∀ subs, getDep (removeSub world x wid) d = some subs → wid ∉ subs := by
  by_cases hx : x = d
  · subst hx
    exact removeSub_clears_self world x wid
  · intro subs hsubs
    rw [getDep_removeSub, if_neg hx] at hsubs
    exact h subs hsubs

theorem foldl_removeSub_keeps_clear (wid d : Nat) (ds : List Nat) :
    ∀ world : DepWorld, (∀ subs, getDep world d = some subs → wid ∉ subs) →
    ∀ subs, getDep (ds.foldl (fun acc x => removeSub acc x wid) world) d = some subs →
      wid ∉ subs := by
  induction ds with
  | nil => intro world h; exact h
  | cons x rest ih =>
    intro world h
    exact ih (removeSub world x wid) (removeSub_keeps_clear world x d wid h)

theorem foldl_removeSub_clears (wid d : Nat) (ds : List Nat) (hd : d ∈ ds) :
    ∀ world : DepWorld,
    ∀ subs, getDep (ds.foldl (fun acc x => removeSub acc x wid) world) d = some subs →
      wid ∉ subs := by
  induction ds with
  | nil => cases hd
  | cons x rest ih =>
    intro world subs hsubs
    rcases List.mem_cons.mp hd with hx | hx
    · subst hx
      exact foldl_removeSub_keeps_clear wid d rest (removeSub world d wid)
        (removeSub_clears_self world d wid) subs hsubs
    · exact ih hx (removeSub world x wid) subs hsubs

/-- C7: `$watch` with a function callback creates the Watcher with
`user = true`; the returned value is a closure that invokes that
Watcher's `teardown()` — after which the watcher's id is subscribed to
none of the Deps it held; and when `options.immediate` is set the
callback is invoked exactly once, with the Watcher's initial value,
before `$watch` returns. -/
theorem dollarWatch_contract (nextId : Nat) (v : JSVal) (deps : List Nat)
    (cb : JSVal → JSResult Unit) (expr : String) (opts : WatchOptions)
    (s : EffState) (r : WatchCallResult)
    (hr : r = dollarWatch nextId v deps cb expr opts s) :
    r.watcher.user = true ∧
    r.unwatch = UnwatchAction.teardownOf r.watcher.id ∧
    (∀ world : DepWorld,
      runUnwatch r.unwatch r.watcher world = teardown r.watcher world) ∧
    (∀ (world : DepWorld) (d : Nat), d ∈ r.watcher.deps →
      ∀ subs, getDep (runUnwatch r.unwatch r.watcher world).2 d = some subs →
        r.watcher.id ∉ subs) ∧
    r.immediateCalls = (if opts.immediate then [r.watcher.value] else []) ∧
    r.watcher.value = v := by
  subst hr
  refine ⟨rfl, rfl, fun world => rfl, ?_, ?_, rfl⟩
  · intro world d hd subs hsubs
    simp only [dollarWatch] at hd hsubs ⊢
    simp only [runUnwatch, teardown, if_pos rfl] at hsubs
    exact foldl_removeSub_clears nextId d deps hd world subs hsubs
  · by_cases him : opts.immediate <;> simp [dollarWatch, him]

/-- Witness for C7: an immediate watcher with id 5 holding deps 1 and 2;
tearing it down through the returned closure removes id 5 from dep 1's
subscriber list. -/
theorem dollarWatch_contract_witness :
    (dollarWatch 5 (JSVal.num 3) [1, 2] (fun _ => JSResult.ok ()) "a.b"
        { immediate := true } ⟨[], []⟩).watcher.user = true ∧
    (dollarWatch 5 (JSVal.num 3) [1, 2] (fun _ => JSResult.ok ()) "a.b"
        { immediate := true } ⟨[], []⟩).immediateCalls = [JSVal.num 3] ∧
    (∀ subs,
      getDep (runUnwatch
          (dollarWatch 5 (JSVal.num 3) [1, 2] (fun _ => JSResult.ok ()) "a.b"
            { immediate := true } ⟨[], []⟩).unwatch
          (dollarWatch 5 (JSVal.num 3) [1, 2] (fun _ => JSResult.ok ()) "a.b"
            { immediate := true } ⟨[], []⟩).watcher
          [(1, [5, 9]), (2, [5])]).2 1 = some subs → 5 ∉ subs) := by
  have h := dollarWatch_contract 5 (JSVal.num 3) [1, 2] (fun _ => JSResult.ok ())
    "a.b" { immediate := true } ⟨[], []⟩ _ rfl
  refine ⟨h.1, ?_, fun subs hs =>
    h.2.2.2.1 [(1, [5, 9]), (2, [5])] 1 (by simp [dollarWatch]) subs hs⟩
  rw [h.2.2.2.2.1]
  simp [dollarWatch]

theorem readN_clean (g : JSVal) (t : Option Nat) (n : Nat) (w : CompWatcher)
    (hw : w.dirty = false) : readN g t n w = (w, List.replicate n w.value) := by
  induction n with
  | zero => simp [readN]
  | succ n ih => simp [readN, computedGetter, hw, ih, List.replicate_succ]

/-- C1: the cached computed getter follows exactly the algorithm
"if dirty then evaluate(); if Dep.target then depend(); return the
cached value": the read value, the watcher state and the trace of
observer calls are fully determined by `dirty` and `Dep.target`; any
number of reads while clean leaves the watcher untouched (the user
getter body never runs) and keeps returning the cached value, while
reads starting dirty run the user getter body exactly once (evalCount
rises by one) and return its result every time. -/
theorem computed_getter_memoizes (g : JSVal) (t : Option Nat) (w : CompWatcher)
    (n : Nat) :
    computedGetter g t w
      = ((if w.dirty then g else w.value),
         (if w.dirty then evaluateW g w else w),
         ((if w.dirty then [CGOp.evaluated] else []) ++
           (if t.isSome then [CGOp.depended] else []))) ∧
    (w.dirty = false → readN g t n w = (w, List.replicate n w.value)) ∧
    (w.dirty = true → 1 ≤ n →
      readN g t n w = (evaluateW g w, List.replicate n g)) := by
  refine ⟨?_, fun hw => readN_clean g t n w hw, fun hw hn => ?_⟩
  · by_cases hd : w.dirty <;> by_cases ht : t.isSome <;>
      simp [computedGetter, evaluateW, hd, ht]
  · obtain ⟨m, rfl⟩ : ∃ m, n = m + 1 := ⟨n - 1, by omega⟩
    have hcl := readN_clean g t m (evaluateW g w) rfl
    simp only [evaluateW] at hcl
    simp [readN, computedGetter, hw, hcl, evaluateW, List.replicate_succ]

/-- Witness for C1, the spec's cache example: a dirty computed whose
getter currently yields 3, read 5 times, runs the getter body once and
returns 3 each time; a clean watcher read 5 times runs it zero times. -/
theorem computed_getter_memoizes_witness :
    readN (JSVal.num 3) none 5 ⟨true, JSVal.undefined, 0⟩
      = (⟨false, JSVal.num 3, 1⟩, List.replicate 5 (JSVal.num 3)) ∧
    readN (JSVal.num 3) none 5 ⟨false, JSVal.num 9, 4⟩
      = (⟨false, JSVal.num 9, 4⟩, List.replicate 5 (JSVal.num 9)) := by
  have h1 := computed_getter_memoizes (JSVal.num 3) none ⟨true, JSVal.undefined, 0⟩ 5
  have h2 := computed_getter_memoizes (JSVal.num 3) none ⟨false, JSVal.num 9, 4⟩ 5
  exact ⟨by simpa [evaluateW] using h1.2.2 rfl (by norm_num), h2.2.1 rfl⟩

/-- C9: a computed property defined without a user setter gets the
no-op setter in production and the warn-only setter in development;
assigning to it never throws (the setter is a total function), leaves
the cached value and all instance fields unchanged, and in development
only appends the advisory "no setter" warning. -/
theorem computed_without_setter_assignment (key : String) (userDef : CompUserDef)
    (h : userDef = CompUserDef.fn ∨
      ∃ g c, userDef = CompUserDef.objDef g none c) :
    chooseSetter false userDef key = CompSetter.noSetter ∧
    chooseSetter true userDef key = CompSetter.warnNoSetter key ∧
    (∀ (v : JSVal) (st : CompState),
      applySetter (chooseSetter false userDef key) v st = st) ∧
    (∀ (v : JSVal) (st : CompState),
      applySetter (chooseSetter true userDef key) v st
        = { st with warnings := st.warnings ++
            [s!"Computed property \"{key}\" was assigned to but it has no setter."] }) := by
  rcases h with h | ⟨g, c, h⟩ <;> subst h <;>
    exact ⟨rfl, rfl, fun v st => rfl, fun v st => rfl⟩

/-- Witness for C9: assigning 1 to a read-only computed named "total"
is a no-op in production and only logs the warning in development. -/
theorem computed_without_setter_assignment_witness :
    applySetter (chooseSetter false CompUserDef.fn "total") (JSVal.num 1)
        ⟨JSVal.num 3, [], []⟩ = ⟨JSVal.num 3, [], []⟩ ∧
    applySetter (chooseSetter true CompUserDef.fn "total") (JSVal.num 1)
        ⟨JSVal.num 3, [], []⟩
      = ⟨JSVal.num 3, [],
         [s!"Computed property \"total\" was assigned to but it has no setter."]⟩ := by
  have h := computed_without_setter_assignment "total" CompUserDef.fn (Or.inl rfl)
  exact ⟨h.2.2.1 (JSVal.num 1) ⟨JSVal.num 3, [], []⟩,
         h.2.2.2 (JSVal.num 1) ⟨JSVal.num 3, [], []⟩⟩

/-- C8: the installed property proxy is pure indirection. When the
backing storage `target[sourceKey]` is an object: a read of
`target[key]` returns exactly `target[sourceKey][key]`; a write stores
the value into `target[sourceKey][key]`; reading through the proxy
after writing through it yields the written value, identical to what
the backing storage now holds directly; and the observer-effect record
is threaded through untouched — the proxy performs no dependency
tracking and no notification. -/
theorem proxy_pure_indirection (inst : List (String × JSVal))
    (sourceKey key : String) (fields : List (String × JSVal)) (v : JSVal)
    (eff : ProxyEff)
    (hb : getField inst sourceKey = some (JSVal.obj fields)) :
    proxyGetter inst sourceKey key eff
      = (jsGetProp (JSVal.obj fields) key, eff) ∧
    proxySetter inst sourceKey key v eff
      = (Except.ok (setField inst sourceKey (JSVal.obj (setField fields key v))), eff) ∧
    (∀ inst', proxySetter inst sourceKey key v eff = (Except.ok inst', eff) →
      proxyGetter inst' sourceKey key eff = (Except.ok v, eff) ∧
      getField inst' sourceKey = some (JSVal.obj (setField fields key v)) ∧
      getField (setField fields key v) key = some v) := by
  have hget : proxyGetter inst sourceKey key eff
      = (jsGetProp (JSVal.obj fields) key, eff) := by
    simp [proxyGetter, jsGetProp, hb]
  have hset : proxySetter inst sourceKey key v eff
      = (Except.ok (setField inst sourceKey (JSVal.obj (setField fields key v))), eff) := by
    simp [proxySetter, hb]
  refine ⟨hget, hset, ?_⟩
  intro inst' hinst
  rw [hset] at hinst
  obtain ⟨h1, -⟩ := Prod.mk.injEq .. ▸ hinst
  have hinst' : inst' = setField inst sourceKey (JSVal.obj (setField fields key v)) :=
    (Except.ok.injEq .. ▸ h1).symm
  subst hinst'
  have hb' : getField (setField inst sourceKey (JSVal.obj (setField fields key v)))
      sourceKey = some (JSVal.obj (setField fields key v)) :=
    getField_setField_self inst sourceKey _
  refine ⟨?_, hb', getField_setField_self fields key v⟩
  simp [proxyGetter, jsGetProp, hb', getField_setField_self]

/-- Witness for C8: instance `{_data: {msg: "a"}}`; writing "b" through
the proxy and reading back through it yields "b", matching the backing
`_data` object. -/
theorem proxy_pure_indirection_witness :
    proxyGetter [("_data", JSVal.obj [("msg", JSVal.str "a")])] "_data" "msg"
        ⟨[], []⟩ = (Except.ok (JSVal.str "a"), ⟨[], []⟩) ∧
    proxyGetter [("_data", JSVal.obj [("msg", JSVal.str "b")])] "_data" "msg"
        ⟨[], []⟩ = (Except.ok (JSVal.str "b"), ⟨[], []⟩) ∧
    proxySetter [("_data", JSVal.obj [("msg", JSVal.str "a")])] "_data" "msg"
        (JSVal.str "b") ⟨[], []⟩
      = (Except.ok [("_data", JSVal.obj [("msg", JSVal.str "b")])], ⟨[], []⟩) := by
  have h := proxy_pure_indirection [("_data", JSVal.obj [("msg", JSVal.str "a")])]
    "_data" "msg" [("msg", JSVal.str "a")] (JSVal.str "b") ⟨[], []⟩
    (by simp [getField])
  refine ⟨?_, ?_, ?_⟩
  · rw [h.1]
    simp [jsGetProp, getField]
  · have h3 := (h.2.2 [("_data", JSVal.obj [("msg", JSVal.str "b")])]
      (by rw [h.2.1]; simp [setField])).1
    simpa using h3
  · rw [h.2.1]
    simp [setField]

end VueState
